import Mathlib

/-!
Shallow embedding of `src/molecule.py` (the `Molecule` value object of the
psinglepoint repository) together with a model of its collaborators
(`parse.CoordinateString`, `util.atomdata`, `util.physconst`) that are part of
the repository but are not shipped under `src/`; those collaborators are
modelled from the specification.

Numbers are embedded as exact rationals (`ℚ`): the Python code works with
IEEE floats, but every claim checked here is either exact-arithmetic in
nature or explicitly allows a formatting tolerance which exact arithmetic
satisfies.  Fallible Python code (constructors that `raise`) is embedded in
`Except MolError`.  Mutation is embedded as explicit state passing; for the
one claim about array aliasing (`copy` independence) a small explicit store
of coordinate arrays models numpy array identity.
-/

/-- Coordinate row: one atom's Cartesian x, y, z. -/
abbrev Vec3 : Type := ℚ × ℚ × ℚ

/-- Error taxonomy of the module (spec §7): malformed coordinate line,
invalid units string at construction, unknown atomic symbol at mass lookup. -/
inductive MolError : Type where
  | invalidUnits : MolError
  | unknownSymbol : String → MolError
  | formatError : MolError
deriving DecidableEq

/-- Modelled from the spec: `util.atomdata`'s static atomic-mass table is not
under `src/`; the spec only requires a static lookup from atomic symbol to
mass (§6).  The table below lists a few common elements; no claim depends on
the numeric mass values, only on which symbols are present. -/
def massTable : List (String × ℚ) :=
  [("H", 1.00782503207), ("He", 4.002602), ("Li", 7.016004548),
   ("B", 11.009305406), ("C", 12.0), ("N", 14.0030740048),
   ("O", 15.99491461956), ("F", 18.99840322), ("Ne", 19.99244017542),
   ("Cl", 34.96885268)]

/-- Modelled from the spec: `util.atomdata.get_mass` looks an atomic symbol up
in the static mass table; the lookup fails on an unknown symbol (spec §4.2,
§7 UnknownSymbolError). -/
def get_mass (label : String) : Option ℚ :=
  massTable.lookup label

/-- Mass lookup over a label list, failing at the first unknown symbol, as the
list comprehension `[atomdata.get_mass(label) for label in labels]` does. -/
def lookupMasses : List String → Except MolError (List ℚ)
  | [] => .ok []
  | l :: ls =>
    match get_mass l with
    | none => .error (.unknownSymbol l)
    | some m => (lookupMasses ls).map (fun ms => m :: ms)

/-- Modelled from the spec: `util.physconst.bohr2angstrom` is not under
`src/`; the spec fixes only that it is a single fixed physical conversion
constant (§6, glossary).  The CODATA value used by psi4-era constant tables
is taken here; no claim depends on the exact value, only on it being a fixed
nonzero constant. -/
def bohr2angstrom : ℚ := 0.52917720859

/-- Python `str.lower()` restricted to ASCII strings, as applied to the
`units` argument in `Molecule.__init__`. -/
def strLower (s : String) : String := String.mk (s.toList.map Char.toLower)

/-- The Molecule value object of `src/molecule.py`: atomic labels, an
atom-count × 3 coordinate matrix (here a list of rows), a units string, the
derived per-atom masses and the stored atom count. -/
structure Molecule : Type where
  labels : List String
  coordinates : List Vec3
  units : String
  masses : List ℚ
  natom : Nat
deriving DecidableEq

/-- Embedding of `Molecule.__init__` (src/molecule.py lines 40-49): store the
labels and coordinates, lowercase the units, look up every mass (failing with
the unknown-symbol error, before any units validation), store the atom count,
and only then reject a lowercased units value that is neither "angstrom" nor
"bohr" with a ValueError (here `MolError.invalidUnits`). -/
def mkMolecule (labels : List String) (coordinates : List Vec3)
    (units : String := "angstrom") : Except MolError Molecule :=
  let u := strLower units
  (lookupMasses labels).bind (fun masses =>
    if u = "angstrom" ∨ u = "bohr" then
      .ok { labels := labels, coordinates := coordinates, units := u,
            masses := masses, natom := labels.length }
    else
      .error .invalidUnits)

/-- Multiply every component of a coordinate row by a scalar (numpy `*=`). -/
def mulRow (c : ℚ) (v : Vec3) : Vec3 := (v.1 * c, v.2.1 * c, v.2.2 * c)

/-- Divide every component of a coordinate row by a scalar (numpy `/=`). -/
def divRow (c : ℚ) (v : Vec3) : Vec3 := (v.1 / c, v.2.1 / c, v.2.2 / c)

/-- Embedding of `Molecule.set_units` (src/molecule.py lines 51-57):
bohr→angstrom multiplies every coordinate component by `bohr2angstrom`,
angstrom→bohr divides by it, and any other combination of current and target
units leaves the molecule untouched. -/
def Molecule.set_units (m : Molecule) (units : String) : Molecule :=
  if units = "angstrom" ∧ m.units = "bohr" then
    { m with units := "angstrom",
             coordinates := m.coordinates.map (mulRow bohr2angstrom) }
  else if units = "bohr" ∧ m.units = "angstrom" then
    { m with units := "bohr",
             coordinates := m.coordinates.map (divRow bohr2angstrom) }
  else m

/-- Embedding of `Molecule.set_coordinates` (src/molecule.py lines 76-80):
replace the coordinate matrix wholesale; keep the current units when `units`
is `none` (Python `None`), otherwise store the given units string verbatim,
with no conversion, lowercasing or validation. -/
def Molecule.set_coordinates (m : Molecule) (coordinates : List Vec3)
    (units : Option String := none) : Molecule :=
  { m with units := units.getD m.units, coordinates := coordinates }

/-- Embedding of `Molecule.__iter__` (src/molecule.py lines 59-61): the pairs
`(label, coordinate-row)` in label order; Python's `zip` truncates to the
shorter sequence. -/
def Molecule.pairs (m : Molecule) : List (String × Vec3) :=
  m.labels.zip m.coordinates

/-- Decimal digit to its character, for rendering coordinates. -/
def digitToChar : Nat → Char
  | 0 => '0'
  | 1 => '1'
  | 2 => '2'
  | 3 => '3'
  | 4 => '4'
  | 5 => '5'
  | 6 => '6'
  | 7 => '7'
  | 8 => '8'
  | _ => '9'

/-- Decimal rendering of a natural number, most significant digit first. -/
def natChars (n : Nat) : List Char :=
  if n = 0 then ['0'] else ((Nat.digits 10 n).map digitToChar).reverse

/-- Fractional part of the fixed-point rendering: exactly ten decimal digits,
left-padded with zeros. -/
def fracChars (n : Nat) : List Char :=
  let ds := natChars n
  List.replicate (10 - ds.length) '0' ++ ds

/-- Embedding of the Python format `"{:.10f}"` applied to a coordinate: the
value rounded to ten decimal places rendered in fixed point with a leading
minus sign when negative.  (CPython rounds the underlying binary float
half-to-even at the tenth place; on values that are exact multiples of
`10 ^ (-10)` — the only ones any claim quantifies over — no rounding happens
and every rounding mode agrees.) -/
def fixed10 (q : ℚ) : List Char :=
  let n : ℤ := round (q * 10 ^ 10)
  let a : Nat := n.natAbs
  let body := natChars (a / 10 ^ 10) ++ '.' :: fracChars (a % 10 ^ 10)
  if n < 0 then '-' :: body else body

/-- Left padding with spaces to a minimum field width (Python `"{: >15.10f}"`:
fill `' '`, align `'>'`, width 15). -/
def padLeftSp (w : Nat) (cs : List Char) : List Char :=
  List.replicate (w - cs.length) ' ' ++ cs

/-- Python `"{:2s}"`: the label left-justified in a field of minimum width 2,
padded on the right with spaces. -/
def fmtLabel (l : String) : List Char :=
  l.toList ++ List.replicate (2 - l.toList.length) ' '

/-- One coordinate field of the atom line: `"{: >15.10f}"`. -/
def fmtCoord (q : ℚ) : List Char :=
  padLeftSp 15 (fixed10 q)

/-- One atom line of `Molecule.__str__` (src/molecule.py line 65):
`"{:2s} {: >15.10f} {: >15.10f} {: >15.10f}"`, without the trailing newline. -/
def atomLine (l : String) (v : Vec3) : List Char :=
  fmtLabel l ++ ' ' :: (fmtCoord v.1 ++ ' ' :: (fmtCoord v.2.1 ++ ' ' :: fmtCoord v.2.2))

/-- The leading `units <name>` line of `Molecule.__str__` (src/molecule.py
line 64), without the trailing newline. -/
def unitsLineChars (u : String) : List Char :=
  "units ".toList ++ u.toList

/-- All lines of `Molecule.__str__`, in order, newlines not included. -/
def molLines (m : Molecule) : List (List Char) :=
  unitsLineChars m.units :: m.pairs.map (fun p => atomLine p.1 p.2)

/-- Embedding of `Molecule.__str__` (src/molecule.py lines 63-68): the units
line followed by one formatted line per `(label, row)` pair, each line ending
in a newline. -/
def Molecule.str (m : Molecule) : String :=
  String.mk (List.flatten ((molLines m).map (· ++ ['\n'])))

/-- Whitespace-separated tokens of one line: split on spaces, dropping the
empty chunks that runs of padding spaces produce. -/
def tokenize (cs : List Char) : List (List Char) :=
  (cs.splitOn ' ').filter (fun t => !t.isEmpty)

/-- Lines of a text, split at newline characters. -/
def splitLines (cs : List Char) : List (List Char) :=
  cs.splitOn '\n'

/-- The token opening a units directive line. -/
def unitsWord : List Char := ['u', 'n', 'i', 't', 's']

/-- Modelled from the spec: `parse.CoordinateString` is not under `src/`; the
spec (§2, §4.1) describes it as a transient parsing view over raw text whose
three extraction operations work line by line on whitespace-separated
tokens. -/
structure CoordinateString : Type where
  text : String

/-- The token lists of every line of the text, in order. -/
def CoordinateString.tokenLines (cs : CoordinateString) : List (List (List Char)) :=
  (splitLines cs.text.toList).map tokenize

/-- Modelled from the spec (§4.1): `extract_units` scans the lines for a
`units <token>` directive and returns the token lower-cased; in its absence
the default is "angstrom" (§9 recommended default). -/
def CoordinateString.extract_units (cs : CoordinateString) : String :=
  match cs.tokenLines.find? (fun t => t.head? == some unitsWord) with
  | some (_ :: u :: _) => strLower (String.mk u)
  | _ => "angstrom"

/-- The token lists of the data lines: lines that are not blank and are not
the units directive (spec §4.1). -/
def CoordinateString.dataLines (cs : CoordinateString) : List (List (List Char)) :=
  cs.tokenLines.filter (fun t => !t.isEmpty && !(t.head? == some unitsWord))

/-- Modelled from the spec (§4.1): `extract_labels` takes the first
whitespace-separated token of every data line as the atomic symbol. -/
def CoordinateString.extract_labels (cs : CoordinateString) : List String :=
  cs.dataLines.map (fun t => String.mk (t.headD []))

/-- Digit test on characters, for numeric-token parsing. -/
def isDigitChar (c : Char) : Bool :=
  decide ('0' ≤ c) && decide (c ≤ '9')

/-- Numeric value of a digit character. -/
def charVal (c : Char) : Nat := c.toNat - 48

/-- Parse a nonempty all-digit token as a natural number. -/
def parseNatToken (cs : List Char) : Option Nat :=
  if !cs.isEmpty && cs.all isDigitChar then
    some (Nat.ofDigits 10 ((cs.map charVal).reverse))
  else none

/-- Parse an unsigned fixed-point token: digits, optionally followed by a
point and further digits. -/
def parseUFloatToken (cs : List Char) : Option ℚ :=
  match cs.splitOn '.' with
  | [w] => (parseNatToken w).map (fun n => (n : ℚ))
  | [w, f] =>
    match parseNatToken w, parseNatToken f with
    | some wn, some fn => some ((wn : ℚ) + (fn : ℚ) / 10 ^ f.length)
    | _, _ => none
  | _ => none

/-- Parse a fixed-point token with an optional leading sign, as `float()`
accepts the coordinate tokens the stringifier emits. -/
def parseFloatToken (cs : List Char) : Option ℚ :=
  if cs.head? = some '-' then (parseUFloatToken cs.tail).map (fun q => -q)
  else if cs.head? = some '+' then parseUFloatToken cs.tail
  else parseUFloatToken cs

/-- Parse the three coordinate tokens following the label of one data line;
a line with fewer than four tokens or a non-numeric coordinate token is a
FormatError (spec §4.1 error conditions). -/
def rowOfTokens (t : List (List Char)) : Except MolError Vec3 :=
  match t with
  | _ :: x :: y :: z :: _ =>
    match parseFloatToken x, parseFloatToken y, parseFloatToken z with
    | some a, some b, some c => .ok (a, b, c)
    | _, _, _ => .error .formatError
  | _ => .error .formatError

/-- Coordinate rows of a list of data lines' token lists, in line order,
failing at the first malformed line. -/
def rowsOfTokenLines : List (List (List Char)) → Except MolError (List Vec3)
  | [] => .ok []
  | t :: ts =>
    (rowOfTokens t).bind (fun v => (rowsOfTokenLines ts).map (fun vs => v :: vs))

/-- Modelled from the spec (§4.1): `extract_coordinates` parses, for every
data line, the three tokens after the label as floating-point x, y, z. -/
def CoordinateString.extract_coordinates (cs : CoordinateString) :
    Except MolError (List Vec3) :=
  rowsOfTokenLines cs.dataLines

/-- Embedding of `Molecule.from_coord_string` (src/molecule.py lines 34-38):
extract labels and coordinates and construct. -/
def Molecule.from_coord_string (cs : CoordinateString) (units : String) :
    Except MolError Molecule :=
  (cs.extract_coordinates).bind (fun coords =>
    mkMolecule cs.extract_labels coords units)

/-- Embedding of `Molecule.from_string` (src/molecule.py lines 28-32): wrap
the text in a CoordinateString, extract the units, and delegate. -/
def Molecule.from_string (s : String) : Except MolError Molecule :=
  let cs : CoordinateString := ⟨s⟩
  Molecule.from_coord_string cs cs.extract_units

/-- Store of coordinate arrays, modelling numpy array identity: a molecule
holds a reference (an index) into the store, `coordinates.copy()` allocates a
fresh array, and writes through one reference leave other arrays unchanged. -/
abbrev Store : Type := List (List Vec3)

/-- Contents of the array a reference designates. -/
def Store.read (s : Store) (r : Nat) : List Vec3 :=
  s.getD r []

/-- In-place update of one row of the array a reference designates, modelling
a write such as `mol.coordinates[i] = v`. -/
def Store.writeRow (s : Store) (r i : Nat) (v : Vec3) : Store :=
  s.set r ((s.getD r []).set i v)

/-- Molecule whose coordinate matrix lives in a store, for the aliasing
claims about `copy`. -/
structure MoleculeH : Type where
  labels : List String
  coordRef : Nat
  units : String
  masses : List ℚ
  natom : Nat
deriving DecidableEq

/-- Embedding of `Molecule.copy` (src/molecule.py lines 73-74) over the
store: `Molecule(self.labels, self.coordinates.copy(), self.units)` — a fresh
array is allocated with the same contents (numpy `.copy()`), and the
constructor re-runs the mass lookup and units validation of `__init__`. -/
def copyH (s : Store) (m : MoleculeH) : Except MolError (Store × MoleculeH) :=
  let a := s.read m.coordRef
  let s' := s ++ [a]
  let r' := s.length
  let u := strLower m.units
  (lookupMasses m.labels).bind (fun masses =>
    if u = "angstrom" ∨ u = "bohr" then
      .ok (s', { labels := m.labels, coordRef := r', units := u,
                 masses := masses, natom := m.labels.length })
    else .error .invalidUnits)

/-- The example water molecule of the spec (§8), in angstrom units, as the
constructor of src/molecule.py produces it. -/
def waterA : Molecule :=
  { labels := ["O", "H", "H"],
    coordinates := [((0 : ℚ), (0 : ℚ), (-0.0647162893 : ℚ)),
                    ((0 : ℚ), (-0.7490459967 : ℚ), (0.5135472375 : ℚ)),
                    ((0 : ℚ), (0.7490459967 : ℚ), (0.5135472375 : ℚ))],
    units := "angstrom",
    masses := [15.99491461956, 1.00782503207, 1.00782503207],
    natom := 3 }

/-- A molecule the constructor accepts although its label count (one) and its
coordinate row count (two) disagree. -/
def mismatchMol : Molecule :=
  { labels := ["H"],
    coordinates := [((0 : ℚ), (0 : ℚ), (0 : ℚ)), ((1 : ℚ), (1 : ℚ), (1 : ℚ))],
    units := "angstrom",
    masses := [1.00782503207],
    natom := 1 }

/-- The water molecule of claim C1's witness, with coordinates exact in the
ten-decimal-place format. -/
def waterStore : Store := [waterA.coordinates]

/-- Heap-model counterpart of the example water molecule, its coordinate
array stored at reference 0 of `waterStore`. -/
def waterH : MoleculeH :=
  { labels := ["O", "H", "H"], coordRef := 0, units := "angstrom",
    masses := [15.99491461956, 1.00782503207, 1.00782503207], natom := 3 }

/-- Exact representability in the ten-decimal-place fixed-point format: the
value is an integer multiple of `10 ^ (-10)`. -/
def repr10 (q : ℚ) : Prop := ∃ n : ℤ, q = (n : ℚ) / 10 ^ 10

/-- Mass lookup yields one mass per label when it succeeds. -/
theorem lookupMasses_length {labels : List String} {ms : List ℚ}
    (h : lookupMasses labels = .ok ms) : ms.length = labels.length := by
  induction labels generalizing ms with
  | nil =>
    simp only [lookupMasses, Except.ok.injEq] at h
    simp [← h]
  | cons l ls ih =>
    simp only [lookupMasses] at h
    cases hg : get_mass l with
    | none => rw [hg] at h; exact absurd h (by simp)
    | some q =>
      rw [hg] at h
      cases hr : lookupMasses ls with
      | error e => rw [hr] at h; exact absurd h (by simp [Except.map])
      | ok ms' =>
        rw [hr] at h
        simp only [Except.map, Except.ok.injEq] at h
        simp [← h, ih hr]

/-- Mass lookup succeeds when every label is in the table. -/
theorem lookupMasses_isOk {labels : List String}
    (h : ∀ l ∈ labels, (get_mass l).isSome) :
    ∃ ms, lookupMasses labels = .ok ms := by
  induction labels with
  | nil => exact ⟨[], rfl⟩
  | cons l ls ih =>
    obtain ⟨q, hq⟩ := Option.isSome_iff_exists.mp (h l (by simp))
    obtain ⟨ms, hms⟩ := ih (fun x hx => h x (by simp [hx]))
    exact ⟨q :: ms, by simp [lookupMasses, hq, hms, Except.map]⟩

/-- Mass lookup fails with the unknown-symbol error of some absent label when
one of the labels is absent from the table. -/
theorem lookupMasses_err {labels : List String}
    (h : ¬ ∀ l ∈ labels, (get_mass l).isSome) :
    ∃ l ∈ labels, get_mass l = none ∧
      lookupMasses labels = .error (.unknownSymbol l) := by
  induction labels with
  | nil => exact absurd (by simp) h
  | cons l ls ih =>
    cases hg : get_mass l with
    | none => exact ⟨l, by simp, hg, by simp [lookupMasses, hg]⟩
    | some q =>
      have hls : ¬ ∀ x ∈ ls, (get_mass x).isSome := by
        intro hc
        exact h (by
          intro x hx
          rcases List.mem_cons.mp hx with hx | hx
          · subst hx; simp [hg]
          · exact hc x hx)
      obtain ⟨x, hx, hxn, hxe⟩ := ih hls
      exact ⟨x, by simp [hx], hxn, by simp [lookupMasses, hg, hxe, Except.map]⟩

/-- Inversion of a successful construction: the fields a constructed molecule
carries, and the validity of the lowercased units. -/
theorem mkMolecule_eq_ok {labels : List String} {c : List Vec3} {u : String}
    {m : Molecule} (h : mkMolecule labels c u = .ok m) :
    m.labels = labels ∧ m.coordinates = c ∧ m.units = strLower u ∧
    m.natom = labels.length ∧ m.masses.length = labels.length ∧
    (strLower u = "angstrom" ∨ strLower u = "bohr") := by
  unfold mkMolecule at h
  cases hms : lookupMasses labels with
  | error e => rw [hms] at h; exact absurd h (by simp [Except.bind])
  | ok ms =>
    rw [hms] at h
    simp only [Except.bind] at h
    by_cases hu : strLower u = "angstrom" ∨ strLower u = "bohr"
    · rw [if_pos hu] at h
      simp only [Except.ok.injEq] at h
      subst h
      exact ⟨rfl, rfl, rfl, rfl, lookupMasses_length hms, hu⟩
    · rw [if_neg hu] at h
      exact absurd h (by simp)

/-- Construction succeeds on known labels and a valid lowercased units value,
storing the lowercased units. -/
theorem mkMolecule_ok_of (labels : List String) (c : List Vec3) (u : String)
    (hm : ∀ l ∈ labels, (get_mass l).isSome)
    (hu : strLower u = "angstrom" ∨ strLower u = "bohr") :
    ∃ m, mkMolecule labels c u = .ok m ∧ m.units = strLower u ∧
      m.labels = labels ∧ m.coordinates = c := by
  obtain ⟨ms, hms⟩ := lookupMasses_isOk hm
  refine ⟨{ labels := labels, coordinates := c, units := strLower u,
            masses := ms, natom := labels.length }, ?_, rfl, rfl, rfl⟩
  simp only [mkMolecule, hms, Except.bind]
  rw [if_pos hu]

/-- Construction with known labels and an invalid lowercased units value
fails with the invalid-units error. -/
theorem mkMolecule_invalid (labels : List String) (c : List Vec3) (u : String)
    (hm : ∀ l ∈ labels, (get_mass l).isSome)
    (hu : ¬(strLower u = "angstrom" ∨ strLower u = "bohr")) :
    mkMolecule labels c u = .error .invalidUnits := by
  obtain ⟨ms, hms⟩ := lookupMasses_isOk hm
  simp only [mkMolecule, hms, Except.bind]
  rw [if_neg hu]

/-- Conversion branch bohr→angstrom of `set_units`. -/
theorem set_units_b2a (m : Molecule) (h : m.units = "bohr") :
    m.set_units "angstrom" =
      { m with units := "angstrom",
               coordinates := m.coordinates.map (mulRow bohr2angstrom) } := by
  unfold Molecule.set_units
  rw [if_pos ⟨rfl, h⟩]

/-- Conversion branch angstrom→bohr of `set_units`. -/
theorem set_units_a2b (m : Molecule) (h : m.units = "angstrom") :
    m.set_units "bohr" =
      { m with units := "bohr",
               coordinates := m.coordinates.map (divRow bohr2angstrom) } := by
  unfold Molecule.set_units
  rw [if_neg (fun hc => by simp at hc), if_pos ⟨rfl, h⟩]

/-- A molecule already in the target units is left untouched by `set_units`. -/
theorem set_units_same (m : Molecule) (t : String) (h : m.units = t) :
    m.set_units t = m := by
  unfold Molecule.set_units
  rw [if_neg, if_neg]
  · rintro ⟨rfl, hb⟩
    rw [h] at hb
    exact absurd hb (by decide)
  · rintro ⟨rfl, hb⟩
    rw [h] at hb
    exact absurd hb (by decide)

/-- Fields of a molecule other than units and coordinates are untouched by
`set_units`, and the coordinate row count is preserved. -/
theorem set_units_fields (m : Molecule) (t : String) :
    (m.set_units t).labels = m.labels ∧ (m.set_units t).masses = m.masses ∧
    (m.set_units t).natom = m.natom ∧
    (m.set_units t).coordinates.length = m.coordinates.length := by
  unfold Molecule.set_units
  split_ifs <;> simp

/-- Multiplying after dividing by the nonzero conversion constant restores a
coordinate row. -/
theorem mulRow_divRow (c : ℚ) (hc : c ≠ 0) (v : Vec3) :
    mulRow c (divRow c v) = v := by
  obtain ⟨a, b, d⟩ := v
  simp [mulRow, divRow, div_mul_cancel₀, hc]

/-- Fixed conversion constant is nonzero. -/
theorem bohr2angstrom_ne_zero : bohr2angstrom ≠ 0 := by
  norm_num [bohr2angstrom]

/-- C2: `set_units` converts bohr→angstrom by multiplying every coordinate
component by `bohr2angstrom`, angstrom→bohr by dividing by it, is a no-op on
the current units, and on the example water molecule in angstrom the z entry
of the first row after `set_units "bohr"` is `-0.0647162893 / bohr2angstrom`. -/
theorem claim_C2 (m : Molecule) :
    (m.units = "bohr" →
      m.set_units "angstrom" =
        { m with units := "angstrom",
                 coordinates := m.coordinates.map (mulRow bohr2angstrom) }) ∧
    (m.units = "angstrom" →
      m.set_units "bohr" =
        { m with units := "bohr",
                 coordinates := m.coordinates.map (divRow bohr2angstrom) }) ∧
    (∀ t, m.units = t → m.set_units t = m) ∧
    ((waterA.set_units "bohr").coordinates.headD default).2.2
      = -0.0647162893 / bohr2angstrom := by
  refine ⟨set_units_b2a m, set_units_a2b m, set_units_same m, ?_⟩
  rw [set_units_a2b waterA rfl]
  rfl

/-- Witness for C2 at the example water molecule. -/
theorem claim_C2_witness :
    waterA.set_units "bohr" =
      { waterA with units := "bohr",
                    coordinates := waterA.coordinates.map (divRow bohr2angstrom) } :=
  (claim_C2 waterA).2.1 rfl

/-- C3: with all labels known to the mass table, construction lowercases the
units argument, succeeds exactly when the lowercased value is "angstrom" or
"bohr" (storing the lowercased value), and fails with the invalid-units error
otherwise. -/
theorem claim_C3 (labels : List String) (c : List Vec3) (u : String)
    (hm : ∀ l ∈ labels, (get_mass l).isSome) :
    (strLower u = "angstrom" ∨ strLower u = "bohr" →
      ∃ m, mkMolecule labels c u = .ok m ∧ m.units = strLower u) ∧
    (¬(strLower u = "angstrom" ∨ strLower u = "bohr") →
      mkMolecule labels c u = .error .invalidUnits) := by
  constructor
  · intro hu
    obtain ⟨m, hmk, hunits, -, -⟩ := mkMolecule_ok_of labels c u hm hu
    exact ⟨m, hmk, hunits⟩
  · exact mkMolecule_invalid labels c u hm

/-- Witness for C3: a mixed-case valid units string succeeds lowercased, and
"meters" fails with the invalid-units error. -/
theorem claim_C3_witness :
    (∃ m, mkMolecule ["O"] [] "ANGSTROM" = .ok m ∧ m.units = "angstrom") ∧
    mkMolecule ["O"] [] "meters" = .error .invalidUnits := by
  constructor
  · have h := (claim_C3 ["O"] [] "ANGSTROM" (by decide)).1 (by left; decide)
    have he : strLower "ANGSTROM" = "angstrom" := by decide
    rw [he] at h
    exact h
  · exact (claim_C3 ["O"] [] "meters" (by decide)).2 (by decide)

/-- C5: `set_units` with a target that is neither "angstrom" nor "bohr"
leaves the molecule entirely unchanged and raises no error. -/
theorem claim_C5 (m : Molecule) (t : String)
    (h1 : t ≠ "angstrom") (h2 : t ≠ "bohr") :
    m.set_units t = m := by
  unfold Molecule.set_units
  rw [if_neg (fun hc => h1 hc.1), if_neg (fun hc => h2 hc.1)]

/-- Witness for C5 at the example water molecule and target "meters". -/
theorem claim_C5_witness : waterA.set_units "meters" = waterA :=
  claim_C5 waterA "meters" (by decide) (by decide)

/-- C6: converting an angstrom molecule to bohr and back to angstrom restores
it exactly (hence in particular within any floating-point tolerance), units
included. -/
theorem claim_C6 (m : Molecule) (h : m.units = "angstrom") :
    (m.set_units "bohr").set_units "angstrom" = m := by
  rw [set_units_a2b m h, set_units_b2a _ rfl]
  cases m with
  | mk labels coords u masses natom =>
    simp only [Molecule.mk.injEq, and_true, true_and]
    constructor
    · rw [List.map_map]
      have hfun : (mulRow bohr2angstrom ∘ divRow bohr2angstrom) = id :=
        funext (fun v => mulRow_divRow bohr2angstrom bohr2angstrom_ne_zero v)
      rw [hfun, List.map_id]
    · exact h.symm

/-- Witness for C6 at the example water molecule. -/
theorem claim_C6_witness :
    (waterA.set_units "bohr").set_units "angstrom" = waterA :=
  claim_C6 waterA rfl

/-- C8: `set_coordinates` replaces the coordinate matrix wholesale; with units
omitted the units are kept, with units supplied the units label is
overwritten without numeric conversion; labels, masses and atom count are
untouched in both cases (visible in the record updates). -/
theorem claim_C8 (m : Molecule) (c : List Vec3) :
    m.set_coordinates c none = { m with coordinates := c } ∧
    ∀ u, m.set_coordinates c (some u) = { m with units := u, coordinates := c } :=
  ⟨rfl, fun _ => rfl⟩

/-- C9: `set_coordinates` with any units string succeeds and stores it
verbatim — no lowercasing, no validation — so the units field may afterwards
hold a value outside the two valid literals; the other fields are those of
the original molecule with the coordinates replaced. -/
theorem claim_C9 (m : Molecule) (c : List Vec3) (u : String) :
    (m.set_coordinates c (some u)).units = u ∧
    (m.set_coordinates c (some u)).coordinates = c ∧
    (m.set_coordinates c (some u)).labels = m.labels ∧
    (m.set_coordinates c (some u)).masses = m.masses ∧
    (m.set_coordinates c (some u)).natom = m.natom :=
  ⟨rfl, rfl, rfl, rfl, rfl⟩

/-- C10: when some label is unknown to the mass table, construction fails
with the unknown-symbol lookup error of such a label, whatever the units
argument is, and the invalid-units error is never raised for such input. -/
theorem claim_C10 (labels : List String) (c : List Vec3) (u : String)
    (h : ¬ ∀ l ∈ labels, (get_mass l).isSome) :
    (∃ l ∈ labels, get_mass l = none ∧
      mkMolecule labels c u = .error (.unknownSymbol l)) ∧
    mkMolecule labels c u ≠ .error .invalidUnits := by
  obtain ⟨l, hl, hn, herr⟩ := lookupMasses_err h
  have hmk : mkMolecule labels c u = .error (.unknownSymbol l) := by
    simp only [mkMolecule, herr, Except.bind]
  refine ⟨⟨l, hl, hn, hmk⟩, ?_⟩
  rw [hmk]
  intro hc
  simp only [Except.error.injEq] at hc
  exact absurd hc (by simp)

/-- Witness for C10: the unknown symbol "Xx" with the also-invalid units
string "meters" yields the unknown-symbol error, not the units error. -/
theorem claim_C10_witness :
    mkMolecule ["Xx"] [] "meters" = .error (.unknownSymbol "Xx") ∧
    mkMolecule ["Xx"] [] "meters" ≠ .error .invalidUnits := by
  obtain ⟨⟨l, hl, -, he⟩, hne⟩ := claim_C10 ["Xx"] [] "meters" (by decide)
  have hlx : l = "Xx" := by simpa using hl
  subst hlx
  exact ⟨he, hne⟩

/-- Counterexample to C4 as stated: the constructor does not compare the
label count with the coordinate row count, so one label with two coordinate
rows is accepted and the resulting Molecule violates
`len(labels) == rows(coordinates)`. -/
theorem claim_C4_counterexample :
    mkMolecule mismatchMol.labels mismatchMol.coordinates "angstrom"
      = .ok mismatchMol ∧
    mismatchMol.labels.length = 1 ∧ mismatchMol.coordinates.length = 2 ∧
    mismatchMol.masses.length = 1 :=
  ⟨rfl, rfl, rfl, rfl⟩

/-- C4 as amended: every successfully constructed molecule has one mass per
label and `natom = len(labels)`, and `set_units` preserves labels, masses,
atom count and coordinate row count; but the constructor performs no
label-count/row-count comparison, so mismatched construction can violate
`len(labels) == rows(coordinates)`; iteration and stringification then
truncate to the shorter of the two sequences. -/
theorem claim_C4_amended (labels : List String) (c : List Vec3) (u : String)
    (m : Molecule) (h : mkMolecule labels c u = .ok m) :
    m.masses.length = m.labels.length ∧ m.natom = m.labels.length ∧
    (∀ t, (m.set_units t).labels = m.labels ∧
          (m.set_units t).masses = m.masses ∧
          (m.set_units t).natom = m.natom ∧
          (m.set_units t).coordinates.length = m.coordinates.length) ∧
    m.pairs.length = min m.labels.length m.coordinates.length ∧
    (molLines m).length = m.pairs.length + 1 := by
  obtain ⟨hlab, hc, -, hnat, hmass, -⟩ := mkMolecule_eq_ok h
  refine ⟨?_, ?_, fun t => set_units_fields m t, ?_, ?_⟩
  · rw [hmass, hlab]
  · rw [hnat, hlab]
  · simp [Molecule.pairs]
  · simp [molLines]

/-- Witness for C4's amended statement at the example water molecule. -/
theorem claim_C4_amended_witness :
    waterA.masses.length = waterA.labels.length ∧
    waterA.natom = waterA.labels.length ∧
    waterA.pairs.length = min waterA.labels.length waterA.coordinates.length := by
  have h := claim_C4_amended waterA.labels waterA.coordinates "angstrom" waterA rfl
  exact ⟨h.1, h.2.1, h.2.2.2.1⟩

/-- C7: `copy` yields a molecule with the same labels and units whose
coordinate array is a fresh one with the same contents, and writing a row
through the copy's array reference leaves the original's array unchanged. -/
theorem claim_C7 (s : Store) (m : MoleculeH)
    (hr : m.coordRef < s.length)
    (hu : m.units = "angstrom" ∨ m.units = "bohr")
    (hlab : ∀ l ∈ m.labels, (get_mass l).isSome) :
    ∃ s2 m2, copyH s m = .ok (s2, m2) ∧
      m2.labels = m.labels ∧ m2.units = m.units ∧ m2.coordRef ≠ m.coordRef ∧
      s2.read m2.coordRef = s.read m.coordRef ∧
      s2.read m.coordRef = s.read m.coordRef ∧
      ∀ i v, (s2.writeRow m2.coordRef i v).read m.coordRef = s.read m.coordRef := by
  have hlow : strLower m.units = m.units := by
    rcases hu with h | h <;> rw [h] <;> decide
  obtain ⟨ms, hms⟩ := lookupMasses_isOk hlab
  have hne : s.length ≠ m.coordRef := ne_of_gt hr
  refine ⟨s ++ [s.read m.coordRef],
    { labels := m.labels, coordRef := s.length, units := strLower m.units,
      masses := ms, natom := m.labels.length }, ?_, rfl, hlow, hne, ?_, ?_, ?_⟩
  · simp only [copyH, hms, Except.bind]
    rw [if_pos (by rw [hlow]; exact hu)]
  · show (s ++ [s.read m.coordRef]).getD s.length [] = s.read m.coordRef
    rw [List.getD_eq_getElem?_getD, List.getElem?_concat_length]
    rfl
  · show (s ++ [s.read m.coordRef]).getD m.coordRef [] = s.read m.coordRef
    rw [List.getD_eq_getElem?_getD, List.getElem?_append, if_pos hr]
    rw [Store.read, List.getD_eq_getElem?_getD]
  · intro i v
    show ((s ++ [s.read m.coordRef]).set s.length _).getD m.coordRef []
      = s.read m.coordRef
    rw [List.getD_eq_getElem?_getD, List.getElem?_set_ne hne,
      List.getElem?_append, if_pos hr]
    rw [Store.read, List.getD_eq_getElem?_getD]

/-- Witness for C7 at the example water molecule stored at reference 0. -/
theorem claim_C7_witness :
    ∃ s2 m2, copyH waterStore waterH = .ok (s2, m2) ∧
      m2.labels = waterH.labels ∧ m2.units = waterH.units ∧
      m2.coordRef ≠ waterH.coordRef ∧
      s2.read m2.coordRef = waterStore.read waterH.coordRef ∧
      ∀ i v, (s2.writeRow m2.coordRef i v).read waterH.coordRef
        = waterStore.read waterH.coordRef := by
  obtain ⟨s2, m2, h1, h2, h3, h4, h5, -, h7⟩ :=
    claim_C7 waterStore waterH (by decide) (Or.inl rfl) (by decide)
  exact ⟨s2, m2, h1, h2, h3, h4, h5, h7⟩

/-- Digit characters round-trip through `charVal`. -/
theorem charVal_digitToChar : ∀ d, d < 10 → charVal (digitToChar d) = d := by
  decide

/-- Rendered digits satisfy the digit test. -/
theorem isDigitChar_digitToChar (d : Nat) : isDigitChar (digitToChar d) = true := by
  unfold digitToChar
  split <;> decide

/-- A digit character is not a space, newline, point, sign, or the letter
'u'. -/
theorem isDigitChar_ne {c : Char} (h : isDigitChar c = true) :
    c ≠ ' ' ∧ c ≠ '\n' ∧ c ≠ '.' ∧ c ≠ '-' ∧ c ≠ '+' ∧ c ≠ 'u' := by
  unfold isDigitChar at h
  rw [Bool.and_eq_true, decide_eq_true_eq, decide_eq_true_eq] at h
  refine ⟨?_, ?_, ?_, ?_, ?_, ?_⟩ <;> rintro rfl <;> revert h <;> decide

/-- Every character of a rendered natural number is a digit. -/
theorem natChars_all_digit (n : Nat) :
    ∀ ch ∈ natChars n, isDigitChar ch = true := by
  unfold natChars
  split
  · intro ch h
    rw [List.mem_singleton] at h
    subst h
    decide
  · intro ch h
    rw [List.mem_reverse, List.mem_map] at h
    obtain ⟨d, -, rfl⟩ := h
    exact isDigitChar_digitToChar d

/-- A rendered natural number is never the empty string. -/
theorem natChars_ne_nil (n : Nat) : natChars n ≠ [] := by
  unfold natChars
  split
  · simp
  · simp [Nat.digits_ne_nil_iff_ne_zero, *]

/-- Parsing inverts rendering on natural numbers. -/
theorem parseNatToken_natChars (n : Nat) :
    parseNatToken (natChars n) = some n := by
  unfold parseNatToken
  rw [if_pos]
  · congr 1
    unfold natChars
    split
    · subst ‹n = 0›
      decide
    · rw [List.map_reverse, List.reverse_reverse, List.map_map]
      have hmap : (Nat.digits 10 n).map (charVal ∘ digitToChar)
          = (Nat.digits 10 n).map id := by
        apply List.map_congr_left
        intro d hd
        exact charVal_digitToChar d (Nat.digits_lt_base (by norm_num) hd)
      rw [hmap, List.map_id, Nat.ofDigits_digits]
  · rw [Bool.and_eq_true]
    constructor
    · simp [natChars_ne_nil n]
    · rw [List.all_eq_true]
      exact natChars_all_digit n

/-- Length bound of the rendering of a number below `10 ^ 10`. -/
theorem natChars_length_le {n : Nat} (h : n < 10 ^ 10) :
    (natChars n).length ≤ 10 := by
  unfold natChars
  split
  · simp
  · rw [List.length_reverse, List.length_map,
      Nat.digits_len 10 n (by norm_num) ‹n ≠ 0›]
    have := (Nat.lt_pow_iff_log_lt (by norm_num : 1 < 10) ‹n ≠ 0›).mp h
    omega

/-- A list of zero digits contributes nothing to `ofDigits`. -/
theorem ofDigits_replicate_zero (k : Nat) :
    Nat.ofDigits 10 (List.replicate k 0) = 0 := by
  induction k with
  | zero => rfl
  | succ j ih => simp [List.replicate_succ, Nat.ofDigits_cons, ih]

/-- Every character of the padded fractional rendering is a digit. -/
theorem fracChars_all_digit (n : Nat) :
    ∀ ch ∈ fracChars n, isDigitChar ch = true := by
  unfold fracChars
  intro ch h
  rw [List.mem_append] at h
  rcases h with h | h
  · rw [List.eq_of_mem_replicate h]
    decide
  · exact natChars_all_digit n ch h

/-- The padded fractional rendering has exactly ten characters. -/
theorem fracChars_length {n : Nat} (h : n < 10 ^ 10) :
    (fracChars n).length = 10 := by
  unfold fracChars
  rw [List.length_append, List.length_replicate]
  have := natChars_length_le h
  omega

/-- Parsing inverts the padded fractional rendering. -/
theorem parseNatToken_fracChars {n : Nat} (h : n < 10 ^ 10) :
    parseNatToken (fracChars n) = some n := by
  unfold parseNatToken
  rw [if_pos]
  · congr 1
    unfold fracChars
    rw [List.map_append, List.reverse_append, Nat.ofDigits_append]
    have hz : (List.replicate (10 - (natChars n).length) '0').map charVal
        = List.replicate (10 - (natChars n).length) 0 := by
      rw [List.map_replicate]
      rfl
    rw [hz, List.reverse_replicate, ofDigits_replicate_zero, Nat.mul_zero,
      Nat.add_zero]
    have hn := parseNatToken_natChars n
    unfold parseNatToken at hn
    rw [if_pos] at hn
    · simpa using hn
    · rw [Bool.and_eq_true]
      exact ⟨by simp [natChars_ne_nil n], by
        rw [List.all_eq_true]; exact natChars_all_digit n⟩
  · rw [Bool.and_eq_true]
    constructor
    · have : (fracChars n).length = 10 := fracChars_length h
      simp only [Bool.not_eq_true']
      rw [List.isEmpty_eq_false_iff_exists_mem]
      have hne : fracChars n ≠ [] := by
        intro hc
        rw [hc] at this
        simp at this
      exact List.exists_mem_of_ne_nil _ hne
    · rw [List.all_eq_true]
      exact fracChars_all_digit n

/-- Splitting at the decimal point recovers the integer and fractional parts
when neither contains a point. -/
theorem splitOn_point (w f : List Char)
    (hw : ∀ ch ∈ w, ch ≠ '.') (hf : ∀ ch ∈ f, ch ≠ '.') :
    (w ++ '.' :: f).splitOn '.' = [w, f] := by
  unfold List.splitOn
  rw [List.splitOnP_first _ w (by intro x hx; simpa using hw x hx) '.'
    (by simp) f]
  rw [List.splitOnP_eq_single _ _ (by intro x hx; simpa using hf x hx)]

/-- Parsing inverts the unsigned fixed-point rendering of `a / 10 ^ 10`. -/
theorem parseUFloatToken_body (a : Nat) :
    parseUFloatToken (natChars (a / 10 ^ 10) ++ '.' :: fracChars (a % 10 ^ 10))
      = some ((a : ℚ) / 10 ^ 10) := by
  have hw : ∀ ch ∈ natChars (a / 10 ^ 10), ch ≠ '.' :=
    fun ch h => (isDigitChar_ne (natChars_all_digit _ ch h)).2.2.1
  have hf : ∀ ch ∈ fracChars (a % 10 ^ 10), ch ≠ '.' :=
    fun ch h => (isDigitChar_ne (fracChars_all_digit _ ch h)).2.2.1
  have hmod : a % 10 ^ 10 < 10 ^ 10 := Nat.mod_lt _ (by norm_num)
  unfold parseUFloatToken
  rw [splitOn_point _ _ hw hf]
  dsimp only
  rw [parseNatToken_natChars, parseNatToken_fracChars hmod,
    fracChars_length hmod]
  dsimp only
  congr 1
  rw [eq_div_iff (by positivity : ((10 : ℚ) ^ 10) ≠ 0), add_mul,
    div_mul_cancel₀ _ (by positivity : ((10 : ℚ) ^ 10) ≠ 0)]
  have h2 : (a / 10 ^ 10) * 10 ^ 10 + a % 10 ^ 10 = a := by
    rw [Nat.mul_comm]
    exact Nat.div_add_mod a (10 ^ 10)
  exact_mod_cast congrArg (fun x : ℕ => (x : ℚ)) h2

/-- The rendering of a natural number followed by anything starts with a
digit character. -/
theorem head_natChars_append (x : Nat) (rest : List Char) :
    ∃ c, (natChars x ++ rest).head? = some c ∧ isDigitChar c = true := by
  cases hn : natChars x with
  | nil => exact absurd hn (natChars_ne_nil x)
  | cons c cs =>
    exact ⟨c, by simp [hn], natChars_all_digit x c (by rw [hn]; simp)⟩

/-- Parsing inverts the signed fixed-point rendering of every exact multiple
of `10 ^ (-10)`. -/
theorem parseFloatToken_fixed10 (n : ℤ) :
    parseFloatToken (fixed10 ((n : ℚ) / 10 ^ 10)) = some ((n : ℚ) / 10 ^ 10) := by
  have hround : round (((n : ℚ) / 10 ^ 10) * 10 ^ 10) = n := by
    rw [div_mul_cancel₀ _ (by positivity : ((10 : ℚ) ^ 10) ≠ 0)]
    exact round_intCast n
  obtain ⟨c, hc, hcd⟩ := head_natChars_append (n.natAbs / 10 ^ 10)
    ('.' :: fracChars (n.natAbs % 10 ^ 10))
  have hcprops := isDigitChar_ne hcd
  unfold fixed10
  rw [hround]
  by_cases hn : n < 0
  · rw [if_pos hn]
    unfold parseFloatToken
    rw [if_pos (by simp)]
    dsimp only [List.tail_cons]
    rw [parseUFloatToken_body]
    have habs : ((n.natAbs : ℚ)) = -(n : ℚ) := by
      rw [Int.cast_natAbs, Int.cast_abs]
      exact abs_of_nonpos (show (n : ℚ) ≤ 0 by exact_mod_cast le_of_lt hn)
    rw [habs]
    simp
    ring
  · rw [if_neg hn]
    unfold parseFloatToken
    rw [if_neg (by rw [hc]; simp [hcprops.2.2.2.1]),
      if_neg (by rw [hc]; simp [hcprops.2.2.2.2.1])]
    rw [parseUFloatToken_body]
    have habs : ((n.natAbs : ℚ)) = (n : ℚ) := by
      rw [Int.cast_natAbs, Int.cast_abs]
      exact abs_of_nonneg (show (0 : ℚ) ≤ (n : ℚ) by exact_mod_cast not_lt.mp hn)
    rw [habs]

/-- Character classes of the fixed-point rendering: digits, the point, and a
possible leading minus. -/
theorem fixed10_chars (q : ℚ) :
    ∀ ch ∈ fixed10 q, isDigitChar ch = true ∨ ch = '.' ∨ ch = '-' := by
  intro ch h
  simp only [fixed10] at h
  split at h
  · rw [List.mem_cons] at h
    rcases h with rfl | h
    · right; right; rfl
    · rw [List.mem_append, List.mem_cons] at h
      rcases h with h | rfl | h
      · exact Or.inl (natChars_all_digit _ ch h)
      · right; left; rfl
      · exact Or.inl (fracChars_all_digit _ ch h)
  · rw [List.mem_append, List.mem_cons] at h
    rcases h with h | rfl | h
    · exact Or.inl (natChars_all_digit _ ch h)
    · right; left; rfl
    · exact Or.inl (fracChars_all_digit _ ch h)

/-- The fixed-point rendering is never empty. -/
theorem fixed10_ne_nil (q : ℚ) : fixed10 q ≠ [] := by
  simp only [fixed10]
  split
  · simp
  · simp [natChars_ne_nil]

/-- No character of the fixed-point rendering is a space or a newline, and
the rendering never equals the units keyword. -/
theorem fixed10_nice (q : ℚ) :
    (∀ ch ∈ fixed10 q, ch ≠ ' ' ∧ ch ≠ '\n') ∧ fixed10 q ≠ unitsWord := by
  constructor
  · intro ch h
    rcases fixed10_chars q ch h with hd | rfl | rfl
    · exact ⟨(isDigitChar_ne hd).1, (isDigitChar_ne hd).2.1⟩
    · exact ⟨by decide, by decide⟩
    · exact ⟨by decide, by decide⟩
  · intro hc
    have hu : 'u' ∈ fixed10 q := by rw [hc]; decide
    rcases fixed10_chars q 'u' hu with hd | h | h
    · exact absurd rfl (isDigitChar_ne hd).2.2.2.2.2
    · exact absurd h (by decide)
    · exact absurd h (by decide)

/-- Tokenizing the empty line yields no tokens. -/
theorem tokenize_nil : tokenize [] = [] := rfl

/-- A leading space does not affect tokenization. -/
theorem tokenize_cons_space (cs : List Char) :
    tokenize (' ' :: cs) = tokenize cs := by
  unfold tokenize List.splitOn
  rw [List.splitOnP_cons, if_pos (by simp)]
  rw [List.filter_cons_of_neg (by simp)]

/-- Leading padding spaces do not affect tokenization. -/
theorem tokenize_replicate (k : Nat) (cs : List Char) :
    tokenize (List.replicate k ' ' ++ cs) = tokenize cs := by
  induction k with
  | zero => rfl
  | succ j ih => rw [List.replicate_succ, List.cons_append, tokenize_cons_space, ih]

/-- A space-free nonempty token followed by a space becomes the head token. -/
theorem tokenize_token_cons (t : List Char) (hne : t ≠ [])
    (hsp : ∀ ch ∈ t, ch ≠ ' ') (cs : List Char) :
    tokenize (t ++ ' ' :: cs) = t :: tokenize cs := by
  unfold tokenize List.splitOn
  rw [List.splitOnP_first _ t (by intro x hx; simpa using hsp x hx) ' '
    (by simp) cs]
  rw [List.filter_cons_of_pos (by simpa using hne)]

/-- A space-free nonempty token alone on a line is its only token. -/
theorem tokenize_single (t : List Char) (hne : t ≠ [])
    (hsp : ∀ ch ∈ t, ch ≠ ' ') :
    tokenize t = [t] := by
  unfold tokenize List.splitOn
  rw [List.splitOnP_eq_single _ _ (by intro x hx; simpa using hsp x hx)]
  rw [List.filter_cons_of_pos (by simpa using hne)]
  rfl

/-- Padding spaces commute over a following space. -/
theorem replicate_shift (a : Nat) (X : List Char) :
    List.replicate a ' ' ++ ' ' :: X = ' ' :: (List.replicate a ' ' ++ X) := by
  induction a with
  | zero => rfl
  | succ k ih => rw [List.replicate_succ, List.cons_append, ih]; rfl

/-- Tokenizing a padded coordinate field followed by a space yields the bare
rendering as the head token. -/
theorem tokenize_fmtCoord_cons (q : ℚ) (cs : List Char) :
    tokenize (fmtCoord q ++ ' ' :: cs) = fixed10 q :: tokenize cs := by
  unfold fmtCoord padLeftSp
  rw [List.append_assoc, tokenize_replicate]
  exact tokenize_token_cons _ (fixed10_ne_nil q)
    (fun ch h => ((fixed10_nice q).1 ch h).1) cs

/-- Tokenizing a padded coordinate field at the end of a line yields the bare
rendering as the only token. -/
theorem tokenize_fmtCoord_last (q : ℚ) :
    tokenize (fmtCoord q) = [fixed10 q] := by
  unfold fmtCoord padLeftSp
  rw [tokenize_replicate]
  exact tokenize_single _ (fixed10_ne_nil q)
    (fun ch h => ((fixed10_nice q).1 ch h).1)

/-- Tokenizing an atom line yields the label and the three bare coordinate
renderings. -/
theorem tokenize_atomLine (l : String) (v : Vec3) (hne : l.toList ≠ [])
    (hsp : ∀ ch ∈ l.toList, ch ≠ ' ') :
    tokenize (atomLine l v)
      = [l.toList, fixed10 v.1, fixed10 v.2.1, fixed10 v.2.2] := by
  unfold atomLine fmtLabel
  rw [List.append_assoc, replicate_shift, tokenize_token_cons _ hne hsp,
    tokenize_replicate, tokenize_fmtCoord_cons, tokenize_fmtCoord_cons,
    tokenize_fmtCoord_last]

/-- Tokenizing the units line yields the units keyword and the units token. -/
theorem tokenize_unitsLine (u : String) (hne : u.toList ≠ [])
    (hsp : ∀ ch ∈ u.toList, ch ≠ ' ') :
    tokenize (unitsLineChars u) = [unitsWord, u.toList] := by
  unfold unitsLineChars
  show tokenize (unitsWord ++ ' ' :: u.toList) = [unitsWord, u.toList]
  rw [tokenize_token_cons unitsWord (by decide) (by decide),
    tokenize_single _ hne hsp]

/-- Splitting a newline-terminated concatenation of newline-free lines at
newlines recovers the lines, with one trailing empty line. -/
theorem splitLines_flatten (lines : List (List Char))
    (h : ∀ l ∈ lines, '\n' ∉ l) :
    splitLines (List.flatten (lines.map (· ++ ['\n']))) = lines ++ [[]] := by
  induction lines with
  | nil => rfl
  | cons L rest ih =>
    have hL : ∀ x ∈ L, ¬((x == '\n') = true) := by
      intro x hx hc
      exact h L (by simp) (eq_of_beq hc ▸ hx)
    simp only [List.map_cons, List.flatten_cons]
    rw [List.append_assoc]
    show splitLines (L ++ '\n' :: List.flatten (rest.map (· ++ ['\n']))) = _
    unfold splitLines List.splitOn
    rw [List.splitOnP_first _ L hL '\n' (by simp) _]
    have ih2 := ih (fun l hl => h l (by simp [hl]))
    unfold splitLines List.splitOn at ih2
    rw [ih2]
    rfl

/-- The character list of a molecule's stringification is the newline-joined
line list. -/
theorem str_toList (m : Molecule) :
    (Molecule.str m).toList = List.flatten ((molLines m).map (· ++ ['\n'])) := rfl

/-- Known labels render as nonempty space-free newline-free tokens distinct
from the units keyword. -/
theorem known_label_nice (l : String) (h : (get_mass l).isSome) :
    l.toList ≠ [] ∧ (∀ ch ∈ l.toList, ch ≠ ' ' ∧ ch ≠ '\n') ∧
    l.toList ≠ unitsWord := by
  have hmem : l = "H" ∨ l = "He" ∨ l = "Li" ∨ l = "B" ∨ l = "C" ∨ l = "N" ∨
      l = "O" ∨ l = "F" ∨ l = "Ne" ∨ l = "Cl" := by
    by_contra hc
    push_neg at hc
    obtain ⟨h1, h2, h3, h4, h5, h6, h7, h8, h9, h10⟩ := hc
    rw [get_mass, massTable] at h
    simp only [List.lookup_cons, beq_eq_false_iff_ne.mpr h1,
      beq_eq_false_iff_ne.mpr h2, beq_eq_false_iff_ne.mpr h3,
      beq_eq_false_iff_ne.mpr h4, beq_eq_false_iff_ne.mpr h5,
      beq_eq_false_iff_ne.mpr h6, beq_eq_false_iff_ne.mpr h7,
      beq_eq_false_iff_ne.mpr h8, beq_eq_false_iff_ne.mpr h9,
      beq_eq_false_iff_ne.mpr h10] at h
    simp at h
  rcases hmem with rfl | rfl | rfl | rfl | rfl | rfl | rfl | rfl | rfl | rfl <;>
    exact ⟨by decide, by decide, by decide⟩

/-- The two valid units strings are nonempty, space-free, newline-free and
fixed by lowercasing. -/
theorem units_nice (u : String) (hu : u = "angstrom" ∨ u = "bohr") :
    u.toList ≠ [] ∧ (∀ ch ∈ u.toList, ch ≠ ' ' ∧ ch ≠ '\n') ∧
    strLower u = u := by
  rcases hu with rfl | rfl <;> exact ⟨by decide, by decide, by decide⟩

/-- A padded coordinate field contains no newline. -/
theorem fmtCoord_no_newline (q : ℚ) : ∀ ch ∈ fmtCoord q, ch ≠ '\n' := by
  intro ch h hrfl
  unfold fmtCoord padLeftSp at h
  rw [List.mem_append] at h
  rcases h with h | h
  · rw [List.eq_of_mem_replicate h] at hrfl
    exact absurd hrfl (by decide)
  · subst hrfl
    exact ((fixed10_nice q).1 _ h).2 rfl

/-- A padded label field with a newline-free label contains no newline. -/
theorem fmtLabel_no_newline (l : String) (hl : ∀ ch ∈ l.toList, ch ≠ '\n') :
    ∀ ch ∈ fmtLabel l, ch ≠ '\n' := by
  intro ch h hrfl
  unfold fmtLabel at h
  rw [List.mem_append] at h
  rcases h with h | h
  · exact hl ch h hrfl
  · rw [List.eq_of_mem_replicate h] at hrfl
    exact absurd hrfl (by decide)

/-- An atom line with a newline-free label contains no newline. -/
theorem atomLine_no_newline (l : String) (v : Vec3)
    (hl : ∀ ch ∈ l.toList, ch ≠ '\n') :
    '\n' ∉ atomLine l v := by
  intro hmem
  unfold atomLine at hmem
  rcases List.mem_append.mp hmem with h | h
  · exact fmtLabel_no_newline l hl '\n' h rfl
  rcases List.mem_cons.mp h with h1 | h1
  · exact absurd h1 (by decide)
  rcases List.mem_append.mp h1 with h2 | h2
  · exact fmtCoord_no_newline v.1 '\n' h2 rfl
  rcases List.mem_cons.mp h2 with h3 | h3
  · exact absurd h3 (by decide)
  rcases List.mem_append.mp h3 with h4 | h4
  · exact fmtCoord_no_newline v.2.1 '\n' h4 rfl
  rcases List.mem_cons.mp h4 with h5 | h5
  · exact absurd h5 (by decide)
  exact fmtCoord_no_newline v.2.2 '\n' h5 rfl

/-- The units line contains no newline when the units token has none. -/
theorem unitsLine_no_newline (u : String) (hu : ∀ ch ∈ u.toList, ch ≠ '\n') :
    '\n' ∉ unitsLineChars u := by
  intro hmem
  unfold unitsLineChars at hmem
  rcases List.mem_append.mp hmem with h | h
  · exact absurd h (by decide)
  · exact hu '\n' h rfl

/-- Parsing a tokenized atom line of exactly representable coordinates
recovers the coordinate row. -/
theorem rowOfTokens_fixed (l : String) (v : Vec3)
    (h1 : repr10 v.1) (h2 : repr10 v.2.1) (h3 : repr10 v.2.2) :
    rowOfTokens [l.toList, fixed10 v.1, fixed10 v.2.1, fixed10 v.2.2]
      = .ok v := by
  obtain ⟨n1, e1⟩ := h1
  obtain ⟨n2, e2⟩ := h2
  obtain ⟨n3, e3⟩ := h3
  unfold rowOfTokens
  dsimp only
  rw [e1, e2, e3, parseFloatToken_fixed10 n1, parseFloatToken_fixed10 n2,
    parseFloatToken_fixed10 n3]
  dsimp only
  rw [← e1, ← e2, ← e3]

/-- Parsing the tokenized atom lines of exactly representable pairs recovers
the coordinate rows in order. -/
theorem rowsOfTokenLines_ok (ps : List (String × Vec3))
    (h : ∀ p ∈ ps, repr10 p.2.1 ∧ repr10 p.2.2.1 ∧ repr10 p.2.2.2) :
    rowsOfTokenLines (ps.map (fun p =>
        [p.1.toList, fixed10 p.2.1, fixed10 p.2.2.1, fixed10 p.2.2.2]))
      = .ok (ps.map Prod.snd) := by
  induction ps with
  | nil => rfl
  | cons p ps ih =>
    obtain ⟨hp1, hp2, hp3⟩ := h p (by simp)
    rw [List.map_cons, List.map_cons]
    simp only [rowsOfTokenLines]
    rw [rowOfTokens_fixed p.1 p.2 hp1 hp2 hp3,
      ih (fun x hx => h x (by simp [hx]))]
    rfl

/-- C1: a molecule with the spec invariant, valid units, labels known to the
mass table and coordinates exactly representable in the ten-decimal-place
format stringifies to a text beginning with its `units <name>` line followed
by one line per atom, and `from_string` of that text reconstructs the same
labels (in order), the same units, and exactly the same coordinates (hence
within the 1e-10 formatting tolerance). -/
theorem claim_C1 (m : Molecule)
    (hlab : ∀ l ∈ m.labels, (get_mass l).isSome)
    (hu : m.units = "angstrom" ∨ m.units = "bohr")
    (hlen : m.labels.length = m.coordinates.length)
    (hrep : ∀ v ∈ m.coordinates, repr10 v.1 ∧ repr10 v.2.1 ∧ repr10 v.2.2) :
    (∃ rest, (Molecule.str m).toList
        = "units ".toList ++ m.units.toList ++ '\n' :: rest) ∧
    (molLines m).length = 1 + m.labels.length ∧
    ∃ m2, Molecule.from_string (Molecule.str m) = .ok m2 ∧
      m2.labels = m.labels ∧ m2.units = m.units ∧
      m2.coordinates = m.coordinates := by
  have hun := units_nice m.units hu
  have hpairs_mem : ∀ p ∈ m.pairs, p.1 ∈ m.labels ∧ p.2 ∈ m.coordinates :=
    fun p hp => List.of_mem_zip hp
  have hnol : ∀ l ∈ molLines m, '\n' ∉ l := by
    intro l hl
    rcases List.mem_cons.mp hl with rfl | hl2
    · exact unitsLine_no_newline m.units (fun ch h => (hun.2.1 ch h).2)
    · rw [List.mem_map] at hl2
      obtain ⟨p, hp, rfl⟩ := hl2
      have hlp := known_label_nice p.1 (hlab p.1 (hpairs_mem p hp).1)
      exact atomLine_no_newline p.1 p.2 (fun ch h => (hlp.2.1 ch h).2)
  have hsplit : splitLines ((Molecule.str m).toList) = molLines m ++ [[]] := by
    rw [str_toList]
    exact splitLines_flatten _ hnol
  have htok : CoordinateString.tokenLines ⟨Molecule.str m⟩
      = [unitsWord, m.units.toList] ::
        (m.pairs.map (fun p =>
          [p.1.toList, fixed10 p.2.1, fixed10 p.2.2.1, fixed10 p.2.2.2])
         ++ [[]]) := by
    show (splitLines ((Molecule.str m).toList)).map tokenize = _
    rw [hsplit]
    simp only [molLines, List.cons_append, List.map_cons,
      List.map_append, List.map_map]
    rw [tokenize_unitsLine m.units hun.1 (fun ch h => (hun.2.1 ch h).1)]
    congr 1
    congr 1
    apply List.map_congr_left
    intro p hp
    have hlp := known_label_nice p.1 (hlab p.1 (hpairs_mem p hp).1)
    exact tokenize_atomLine p.1 p.2 hlp.1 (fun ch h => (hlp.2.1 ch h).1)
  have hunits : CoordinateString.extract_units ⟨Molecule.str m⟩ = m.units := by
    unfold CoordinateString.extract_units
    rw [htok, List.find?_cons_of_pos _ (by simp)]
    exact hun.2.2
  have hdata : CoordinateString.dataLines ⟨Molecule.str m⟩
      = m.pairs.map (fun p =>
          [p.1.toList, fixed10 p.2.1, fixed10 p.2.2.1, fixed10 p.2.2.2]) := by
    unfold CoordinateString.dataLines
    rw [htok, List.filter_cons_of_neg (by simp), List.filter_append]
    rw [List.filter_eq_self.mpr ?hall]
    · simp
    case hall =>
      intro t ht
      rw [List.mem_map] at ht
      obtain ⟨p, hp, rfl⟩ := ht
      have hlp := known_label_nice p.1 (hlab p.1 (hpairs_mem p hp).1)
      simp
      exact hlp.2.2
  have hlabels : CoordinateString.extract_labels ⟨Molecule.str m⟩
      = m.labels := by
    unfold CoordinateString.extract_labels
    rw [hdata, List.map_map]
    show m.pairs.map Prod.fst = m.labels
    exact List.map_fst_zip _ _ (le_of_eq hlen)
  have hcoords : CoordinateString.extract_coordinates ⟨Molecule.str m⟩
      = .ok m.coordinates := by
    unfold CoordinateString.extract_coordinates
    rw [hdata, rowsOfTokenLines_ok _ (fun p hp =>
      hrep p.2 (hpairs_mem p hp).2)]
    show Except.ok (List.map Prod.snd (m.labels.zip m.coordinates))
      = Except.ok m.coordinates
    rw [List.map_snd_zip _ _ (le_of_eq hlen.symm)]
  refine ⟨?_, ?_, ?_⟩
  · refine ⟨List.flatten ((m.pairs.map (fun p => atomLine p.1 p.2)).map
      (· ++ ['\n'])), ?_⟩
    rw [str_toList]
    simp only [molLines, List.map_cons, List.flatten_cons, unitsLineChars]
    simp [List.append_assoc]
  · simp only [molLines, List.length_cons, List.length_map, Molecule.pairs,
      List.length_zip]
    rw [← hlen, Nat.min_self]
    omega
  · obtain ⟨ms, hms⟩ := lookupMasses_isOk hlab
    have hfs : Molecule.from_string (Molecule.str m)
        = (CoordinateString.extract_coordinates ⟨Molecule.str m⟩).bind
          (fun coords =>
            mkMolecule (CoordinateString.extract_labels ⟨Molecule.str m⟩)
              coords (CoordinateString.extract_units ⟨Molecule.str m⟩)) := rfl
    rw [hfs, hcoords, hunits, hlabels]
    refine ⟨{ labels := m.labels, coordinates := m.coordinates,
              units := strLower m.units, masses := ms,
              natom := m.labels.length }, ?_, rfl, hun.2.2, rfl⟩
    show mkMolecule m.labels m.coordinates m.units = _
    simp only [mkMolecule, hms, Except.bind]
    rw [if_pos (by rw [hun.2.2]; exact hu)]

/-- Witness for C1 at the example water molecule. -/
theorem claim_C1_witness :
    (∃ rest, (Molecule.str waterA).toList
        = "units ".toList ++ waterA.units.toList ++ '\n' :: rest) ∧
    (molLines waterA).length = 1 + waterA.labels.length ∧
    ∃ m2, Molecule.from_string (Molecule.str waterA) = .ok m2 ∧
      m2.labels = waterA.labels ∧ m2.units = waterA.units ∧
      m2.coordinates = waterA.coordinates := by
  apply claim_C1 waterA (by decide) (Or.inl rfl) rfl
  intro v hv
  have hv3 : v = ((0 : ℚ), (0 : ℚ), (-0.0647162893 : ℚ)) ∨
      v = ((0 : ℚ), (-0.7490459967 : ℚ), (0.5135472375 : ℚ)) ∨
      v = ((0 : ℚ), (0.7490459967 : ℚ), (0.5135472375 : ℚ)) := by
    simpa [waterA] using hv
  have h0 : repr10 (0 : ℚ) := ⟨0, by norm_num⟩
  have ha : repr10 (-0.0647162893 : ℚ) := ⟨-647162893, by norm_num⟩
  have hb : repr10 (-0.7490459967 : ℚ) := ⟨-7490459967, by norm_num⟩
  have hc : repr10 (0.7490459967 : ℚ) := ⟨7490459967, by norm_num⟩
  have hd : repr10 (0.5135472375 : ℚ) := ⟨5135472375, by norm_num⟩
  rcases hv3 with rfl | rfl | rfl
  · exact ⟨h0, h0, ha⟩
  · exact ⟨h0, hb, hd⟩
  · exact ⟨h0, hc, hd⟩
